import Mathlib

/-!
Verification of the geospatial/economic enrichment pipeline:
a shallow embedding of the core functions of `src/main.js` and
`scripts/build_processed.js` (proximity counting, country identity
resolution, percentile rank and gradient mapping, antimeridian ring
normalization), together with theorems settling the specification
claims about them.

JavaScript numbers are modelled by `JsNum`: either a finite rational or
one of the non-finite values `NaN`, `+Infinity`, `-Infinity`.  Finite
float arithmetic is embedded as exact rational arithmetic; every claim
settled here depends only on comparisons and exact integer-valued or
small decimal computations where float and rational agree.
-/

namespace GeoCore

/-- A JavaScript number: `NaN`, `+Infinity`, `-Infinity`, or a finite
value (embedded as a rational). -/
inductive JsNum where
  | nan
  | inf
  | ninf
  | fin (q : ℚ)
deriving DecidableEq

/-- The JavaScript Number.isFinite test. -/
def JsNum.isFinite : JsNum → Bool
  | JsNum.fin _ => true
  | _ => false

/-- JavaScript comparison a <= b (false whenever either side is NaN). -/
def jsLe : JsNum → JsNum → Bool
  | JsNum.nan, _ => false
  | _, JsNum.nan => false
  | JsNum.ninf, _ => true
  | _, JsNum.inf => true
  | JsNum.inf, _ => false
  | JsNum.fin _, JsNum.ninf => false
  | JsNum.fin a, JsNum.fin b => decide (a ≤ b)

/-- JavaScript comparison a < b (false whenever either side is NaN). -/
def jsLt : JsNum → JsNum → Bool
  | JsNum.nan, _ => false
  | _, JsNum.nan => false
  | _, JsNum.ninf => false
  | JsNum.ninf, _ => true
  | JsNum.inf, _ => false
  | _, JsNum.inf => true
  | JsNum.fin a, JsNum.fin b => decide (a < b)

/-- JavaScript comparison a > b. -/
def jsGt (a b : JsNum) : Bool := jsLt b a

/-- JavaScript addition on numbers (finite case embedded exactly). -/
def jsAdd : JsNum → JsNum → JsNum
  | JsNum.nan, _ => JsNum.nan
  | _, JsNum.nan => JsNum.nan
  | JsNum.inf, JsNum.ninf => JsNum.nan
  | JsNum.ninf, JsNum.inf => JsNum.nan
  | JsNum.inf, _ => JsNum.inf
  | _, JsNum.inf => JsNum.inf
  | JsNum.ninf, _ => JsNum.ninf
  | _, JsNum.ninf => JsNum.ninf
  | JsNum.fin a, JsNum.fin b => JsNum.fin (a + b)

/-- JavaScript unary negation. -/
def jsNeg : JsNum → JsNum
  | JsNum.nan => JsNum.nan
  | JsNum.inf => JsNum.ninf
  | JsNum.ninf => JsNum.inf
  | JsNum.fin a => JsNum.fin (-a)

/-- JavaScript subtraction. -/
def jsSub (a b : JsNum) : JsNum := jsAdd a (jsNeg b)

/-- Binary Math.min (NaN absorbs). -/
def jsMin : JsNum → JsNum → JsNum
  | JsNum.nan, _ => JsNum.nan
  | _, JsNum.nan => JsNum.nan
  | JsNum.ninf, _ => JsNum.ninf
  | _, JsNum.ninf => JsNum.ninf
  | JsNum.inf, b => b
  | a, JsNum.inf => a
  | JsNum.fin a, JsNum.fin b => JsNum.fin (min a b)

/-- Binary Math.max (NaN absorbs). -/
def jsMax : JsNum → JsNum → JsNum
  | JsNum.nan, _ => JsNum.nan
  | _, JsNum.nan => JsNum.nan
  | JsNum.inf, _ => JsNum.inf
  | _, JsNum.inf => JsNum.inf
  | JsNum.ninf, b => b
  | a, JsNum.ninf => a
  | JsNum.fin a, JsNum.fin b => JsNum.fin (max a b)

/-- Spread form Math.min(...xs): the empty spread yields Infinity. -/
def jsMinList (xs : List JsNum) : JsNum := xs.foldl jsMin JsNum.inf

/-- Spread form Math.max(...xs): the empty spread yields -Infinity. -/
def jsMaxList (xs : List JsNum) : JsNum := xs.foldl jsMax JsNum.ninf

/-- A coordinate record, `{latitude, longitude}`
(`scripts/build_processed.js`, `toPoint`). -/
structure Point where
  latitude : JsNum
  longitude : JsNum
deriving DecidableEq

/-- Function distanceKm from scripts/build_processed.js: returns `Infinity`
when any of the four coordinates is non-finite; otherwise computes the
haversine distance.  The transcendental haversine kernel (sin/cos/atan2,
lines 85-95) is abstracted as the parameter `hav`, since the claims
settled here depend only on the non-finite guard; all theorems hold for
every kernel, in particular for the true haversine. -/
def distanceKm (hav : Point → Point → JsNum) (a b : Point) : JsNum :=
  if a.latitude.isFinite && a.longitude.isFinite &&
      b.latitude.isFinite && b.longitude.isFinite then
    hav a b
  else
    JsNum.inf

/-- Function countWithinRadius from scripts/build_processed.js: number of
points whose distance from the origin is `<= radiusKm`. -/
def countWithinRadius (hav : Point → Point → JsNum) (origin : Point)
    (points : List Point) (radiusKm : JsNum) : ℕ :=
  points.countP (fun p => jsLe (distanceKm hav origin p) radiusKm)

/-- A trivial distance kernel used to instantiate theorems at concrete
inputs. -/
def havZero : Point → Point → JsNum := fun _ _ => JsNum.fin 0

/-- The loop `while (lon > 180) lon -= 360` of normalizeRing
(src/main.js), with explicit fuel; `none` means the fuel ran out
before the loop condition became false. -/
def loopSub : ℕ → JsNum → Option JsNum
  | 0, lon => if jsGt lon (JsNum.fin 180) then none else some lon
  | fuel + 1, lon =>
    if jsGt lon (JsNum.fin 180) then loopSub fuel (jsSub lon (JsNum.fin 360))
    else some lon

/-- The loop `while (lon < -180) lon += 360` of normalizeRing,
with explicit fuel. -/
def loopAdd : ℕ → JsNum → Option JsNum
  | 0, lon => if jsLt lon (JsNum.fin (-180)) then none else some lon
  | fuel + 1, lon =>
    if jsLt lon (JsNum.fin (-180)) then loopAdd fuel (jsAdd lon (JsNum.fin 360))
    else some lon

/-- Both wrapping loops of the non-crossing branch of `normalizeRing`,
run in sequence. -/
def wrapLon (fuel : ℕ) (lon : JsNum) : Option JsNum :=
  (loopSub fuel lon).bind (loopAdd fuel)

/-- The non-crossing branch of `normalizeRing`: wrap every longitude,
keep latitudes. -/
def normRingAux (fuel : ℕ) : List (JsNum × JsNum) → Option (List (JsNum × JsNum))
  | [] => some []
  | c :: rest =>
    match wrapLon fuel c.1, normRingAux fuel rest with
    | some lon, some rest2 => some ((lon, c.2) :: rest2)
    | _, _ => none

/-- The per-coordinate transform of the dateline-crossing branch of
`normalizeRing`: shift negative longitudes by +360, clamp values above
180 down to 180 (the third, dead conditional of the source is kept). -/
def crossShift (c : JsNum × JsNum) : JsNum × JsNum :=
  let lon := c.1
  let lon := if jsLt lon (JsNum.fin 0) then jsAdd lon (JsNum.fin 360) else lon
  let lon := if jsGt lon (JsNum.fin 180) then JsNum.fin 180 else lon
  let lon := if jsGt lon (JsNum.fin 180) then jsSub lon (JsNum.fin 360) else lon
  (lon, c.2)

/-- The dateline-crossing classification of `normalizeRing`: some
longitude below -100, some above +100, and raw span above 180.
A ring is a list of `[longitude, latitude]` coordinate pairs. -/
def crossesDateline (ring : List (JsNum × JsNum)) : Bool :=
  let lons := ring.map Prod.fst
  let minLon := jsMinList lons
  let maxLon := jsMaxList lons
  let hasNegative := lons.any (fun l => jsLt l (JsNum.fin (-100)))
  let hasPositive := lons.any (fun l => jsGt l (JsNum.fin 100))
  hasNegative && hasPositive && jsGt (jsSub maxLon minLon) (JsNum.fin 180)

/-- Function normalizeRing from src/main.js, with explicit fuel for the
wrapping loops of the non-crossing branch (the crossing branch is
loop-free and ignores the fuel). -/
def normalizeRing (fuel : ℕ) (ring : List (JsNum × JsNum)) :
    Option (List (JsNum × JsNum)) :=
  if crossesDateline ring then some (ring.map crossShift)
  else normRingAux fuel ring

/-- Termination of normalizeRing on a ring: some finite fuel suffices for
its wrapping loops. -/
def NormalizeTerminates (ring : List (JsNum × JsNum)) : Prop :=
  ∃ fuel, (normalizeRing fuel ring).isSome = true

/-- Decidable bound check: the value is a finite number within
`[lo, hi]`. -/
def lonInRange (x : JsNum) (lo hi : ℚ) : Bool :=
  match x with
  | JsNum.fin q => decide (lo ≤ q) && decide (q ≤ hi)
  | _ => false

/-- ASCII lower-casing of a string, modelling `toLowerCase()` on the
ASCII inputs that occur in country names. -/
def toLowerStr (s : String) : String := String.mk (s.data.map Char.toLower)

/-- Whitespace as stripped by `trim()` (the ASCII whitespace relevant to
the data). -/
def isWspChar (c : Char) : Bool :=
  c = ' ' || c = '\t' || c = '\n' || c = '\r'

/-- The trim() operation: strip leading and trailing whitespace. -/
def trimStr (s : String) : String :=
  String.mk (((s.data.dropWhile isWspChar).reverse.dropWhile isWspChar).reverse)

/-- Is `needle` a prefix of `hay`? -/
def listPrefixOf : List Char → List Char → Bool
  | [], _ => true
  | _ :: _, [] => false
  | a :: as, b :: bs => a = b && listPrefixOf as bs

/-- Does `hay` contain `needle` as a contiguous sublist? -/
def listContains (needle : List Char) : List Char → Bool
  | [] => listPrefixOf needle []
  | c :: rest => listPrefixOf needle (c :: rest) || listContains needle rest

/-- JavaScript `s.includes(sub)`. -/
def strContains (s sub : String) : Bool := listContains sub.data s.data

/-- Lookup in an insertion-ordered string map (JavaScript object with
string keys): first binding wins. -/
def assocLookup (k : String) : List (String × String) → Option String
  | [] => none
  | (k2, v) :: rest => if k = k2 then some v else assocLookup k rest

/-- The fixed alias dictionary of `normalizeCountryName`
(`src/main.js`). -/
def variations : List (String × String) :=
  [("united states of america", "united states"),
   ("united states", "united states"),
   ("usa", "united states"),
   ("russia", "russian federation"),
   ("south korea", "korea, rep."),
   ("north korea", "korea, dem. people\x27s rep."),
   ("uk", "united kingdom"),
   ("united kingdom", "united kingdom")]

/-- Function normalizeCountryName from src/main.js: empty (falsy) input maps
to the empty string; otherwise lower-case, trim, and apply the alias
dictionary, unlisted names passing through unchanged. -/
def normalizeCountryName (name : String) : String :=
  if name = "" then ""
  else
    let normalized := trimStr (toLowerStr name)
    (assocLookup normalized variations).getD normalized

/-- The bidirectional substring-containment fallback loop of
`findCountryCode`: first entry (in insertion order) whose name contains
or is contained in the query. -/
def substringFallback (normalized : String) : List (String × String) → Option String
  | [] => none
  | (gdpName, code) :: rest =>
    if strContains normalized gdpName || strContains gdpName normalized then
      some code
    else substringFallback normalized rest

/-- Function findCountryCode from src/main.js.  The exact-match branch fires
only when the stored code is truthy (non-empty), matching the source's
`if (nameToCodeMap[normalized])`; the `codeToNameMap` argument of the
source is unused by the function and omitted. -/
def findCountryCode (topojsonName : String)
    (nameToCodeMap : List (String × String)) : Option String :=
  if topojsonName = "" then none
  else
    let normalized := normalizeCountryName topojsonName
    let exact := (assocLookup normalized nameToCodeMap).getD ("")
    if exact = "" then substringFallback normalized nameToCodeMap
    else some exact

/-- A parsed GDP series row (`parseRow` output restricted to the fields
the GDP pipeline reads): `year` and `value` are `parseNumber` results,
`none` standing for JavaScript `null`. -/
structure GdpRow where
  country : String
  country_code : String
  year : Option ℚ
  value : Option ℚ
deriving DecidableEq

/-- Function buildCountryNameToCodeMap from src/main.js (the name→code map;
the inverse map is built alongside in the source but never used by
`findCountryCode`).  First-seen wins: the source tests
`if (!nameToCode[normalizedName])`, and stored codes are always
non-empty here, so truthiness coincides with presence. -/
def buildCountryNameToCodeMap (gdpTotal gdpPerCapita : List GdpRow) :
    List (String × String) :=
  (gdpTotal ++ gdpPerCapita).foldl
    (fun acc row =>
      if row.country ≠ "" ∧ row.country_code ≠ "" then
        let n := normalizeCountryName row.country
        if (assocLookup n acc).isSome then acc
        else acc ++ [(n, row.country_code)]
      else acc)
    []

/-- A JavaScript property value that may be `undefined` (field never
assigned), `null`, or a number. -/
inductive JsOpt where
  | undef
  | nullV
  | val (q : ℚ)
deriving DecidableEq

/-- An entry of the `gdpData` dictionary: `{total?, perCapita?}`. -/
structure GdpEntry where
  total : JsOpt
  perCapita : JsOpt
deriving DecidableEq

/-- The fresh object `{}` created by `if (!gdpData[key]) gdpData[key] = {}`. -/
def emptyEntry : GdpEntry := ⟨JsOpt.undef, JsOpt.undef⟩

/-- Storing a parsed value in a field: a parsed `null` is stored as
JavaScript `null`. -/
def jsOptOfOpt : Option ℚ → JsOpt
  | some q => JsOpt.val q
  | none => JsOpt.nullV

/-- One step of the `gdpTotal.forEach` loop that builds `gdpData`
(`src/main.js` lines 399-405): create the entry if absent, then set its
`total` field.  The string keys of the form code_year are modelled as
`(code, year)` pairs, which the string key determines uniquely. -/
def addTotal (m : String × Option ℚ → Option GdpEntry) (row : GdpRow) :
    String × Option ℚ → Option GdpEntry :=
  fun k =>
    if k = (row.country_code, row.year) then
      some { (m k).getD emptyEntry with total := jsOptOfOpt row.value }
    else m k

/-- One step of the `gdpPerCapita.forEach` loop (`src/main.js` lines
406-412): create the entry if absent, then set its `perCapita` field. -/
def addPerCapita (m : String × Option ℚ → Option GdpEntry) (row : GdpRow) :
    String × Option ℚ → Option GdpEntry :=
  fun k =>
    if k = (row.country_code, row.year) then
      some { (m k).getD emptyEntry with perCapita := jsOptOfOpt row.value }
    else m k

/-- The `gdpData` dictionary: all total rows are processed first, then
all per-capita rows, exactly as in the source. -/
def buildGdpData (gdpTotal gdpPerCapita : List GdpRow) :
    String × Option ℚ → Option GdpEntry :=
  gdpPerCapita.foldl addPerCapita (gdpTotal.foldl addTotal (fun _ => none))

/-- The `properties` bag of a country feature; the empty string stands
for an absent (falsy) field. -/
structure FeatureProps where
  name : String
  NAME : String
  NAME_LONG : String
  NAME_EN : String
  ADMIN : String
deriving DecidableEq

/-- Function getCountryName from src/main.js: first truthy field in the fixed
priority order. -/
def getCountryName (p : FeatureProps) : String :=
  if p.name ≠ "" then p.name
  else if p.NAME ≠ "" then p.NAME
  else if p.NAME_LONG ≠ "" then p.NAME_LONG
  else if p.NAME_EN ≠ "" then p.NAME_EN
  else if p.ADMIN ≠ "" then p.ADMIN
  else ""

/-- The `fillOpacity` computed by the style closure of `updateGdpLayer`
(`src/main.js` lines 985-1010): resolve the feature name to a code, look
up `gdpData[code_year]`, take `value = gdp ? gdp.total : null`, and
return `value !== null ? 0.95 : 0.2`.  Note that a `total` field that
was never assigned is `undefined`, and `undefined !== null` is true in
JavaScript. -/
def styleFillOpacity (gdpData : String × Option ℚ → Option GdpEntry)
    (nameToCodeMap : List (String × String)) (props : FeatureProps)
    (year : ℚ) : ℚ :=
  let countryName := getCountryName props
  let countryCode := findCountryCode countryName nameToCodeMap
  let gdp : Option GdpEntry :=
    match countryCode with
    | some code => if code = "" then none else gdpData (code, some year)
    | none => none
  let value : JsOpt :=
    match gdp with
    | some e => e.total
    | none => JsOpt.nullV
  if value ≠ JsOpt.nullV then 0.95 else 0.2

/-- The year filter of `updateGdpLayer` (`src/main.js` lines 942-944):
rows of the requested year whose value parsed to a finite number. -/
def gdpValuesForYear (gdpTotal : List GdpRow) (year : ℚ) : List ℚ :=
  (gdpTotal.filter (fun r => r.year = some year)).filterMap (fun r => r.value)

/-- Insert into an ascending list, keeping stability. -/
def orderedInsert (x : ℚ) : List ℚ → List ℚ
  | [] => [x]
  | y :: ys => if x ≤ y then x :: y :: ys else y :: orderedInsert x ys

/-- Ascending stable sort, the observable behaviour of
`[...values].sort((a, b) => a - b)` on numbers (for numeric values the
sorted output is the unique ascending rearrangement, independent of the
engine's sort algorithm). -/
def sortAsc (l : List ℚ) : List ℚ := l.foldr orderedInsert []

/-- The 0-indexed positions at which `v` occurs in `l` (the
`valuePositions` map of `updateGdpLayer`). -/
def positionsOf (l : List ℚ) (v : ℚ) : List ℕ :=
  (l.enum.filter (fun p => p.2 = v)).map Prod.fst

/-- The rank table of `updateGdpLayer` (`src/main.js` lines 946-964),
as a lookup function: `none` when the value does not occur (the
`gdpValueToRank.has(value)` test), otherwise the mean sorted position
normalized by `totalCountries - 1`, or `0.5` when there is a single
value. -/
def rankOf (values : List ℚ) (v : ℚ) : Option ℚ :=
  let sorted := sortAsc values
  let pos := positionsOf sorted v
  if pos.isEmpty then none
  else
    let avg := ((pos.map (fun i : ℕ => (i : ℚ))).sum) / (pos.length : ℚ)
    some (if 1 < sorted.length then avg / ((sorted.length : ℚ) - 1) else (1/2 : ℚ))

/-- An RGB triple as parsed by the hex regex of `interpolateColor`. -/
structure RGB where
  r : ℕ
  g : ℕ
  b : ℕ
deriving DecidableEq

/-- Value of one hex digit, case-insensitive. -/
def hexVal (c : Char) : Option ℕ :=
  if '0' ≤ c ∧ c ≤ '9' then some (c.toNat - '0'.toNat)
  else if 'a' ≤ c ∧ c ≤ 'f' then some (c.toNat - 'a'.toNat + 10)
  else if 'A' ≤ c ∧ c ≤ 'F' then some (c.toNat - 'A'.toNat + 10)
  else none

/-- The hex-color regex of interpolateColor: an optional hash sign
followed by exactly six case-insensitive hex digits, parsed into the
three channels. -/
def parseHexColor (s : String) : Option RGB :=
  match (if s.data.head? = some ('#') then s.data.tail else s.data) with
  | [a, b, c, d, e, f] =>
    match hexVal a, hexVal b, hexVal c, hexVal d, hexVal e, hexVal f with
    | some ha, some hb, some hc, some hd, some he, some hf =>
      some ⟨16 * ha + hb, 16 * hc + hd, 16 * he + hf⟩
    | _, _, _, _, _, _ => none
  | _ => none

/-- Rendering x.toString(16) for an integer-valued number (lowercase digits,
leading minus for negatives). -/
def numToHex (x : ℤ) : String :=
  if x < 0 then "-" ++ String.mk (Nat.toDigits 16 (-x).toNat)
  else String.mk (Nat.toDigits 16 x.toNat)

/-- The padding step `hex.length === 1 ? "0" + hex : hex` of
interpolateColor. -/
def pad2 (s : String) : String := if s.length = 1 then "0" ++ s else s

/-- Function interpolateColor from src/main.js: parse both colors, blend each
channel with `Math.round` (which is `⌊x + 1/2⌋`, matching Mathlib's
`round`), and re-render as `#rrggbb`; if either parse fails, return the
first color. -/
def interpolateColor (color1 color2 : String) (factor : ℚ) : String :=
  match parseHexColor color1, parseHexColor color2 with
  | some c1, some c2 =>
    let r := round ((c1.r : ℚ) + ((c2.r : ℚ) - (c1.r : ℚ)) * factor)
    let g := round ((c1.g : ℚ) + ((c2.g : ℚ) - (c1.g : ℚ)) * factor)
    let b := round ((c1.b : ℚ) + ((c2.b : ℚ) - (c1.b : ℚ)) * factor)
    "#" ++ pad2 (numToHex r) ++ pad2 (numToHex g) ++ pad2 (numToHex b)
  | _, _ => color1

/-- The fixed 16-stop gradient of `getGdpColorByRank`. -/
def colorStops : List (ℚ × String) :=
  [(0, "#ffffff"), (0.05, "#fff9c4"), (0.10, "#fff59d"), (0.15, "#ffeb3b"),
   (0.22, "#ffc107"), (0.30, "#ff9800"), (0.38, "#ff5722"), (0.45, "#f44336"),
   (0.52, "#e91e63"), (0.60, "#9c27b0"), (0.68, "#673ab7"), (0.75, "#3f51b5"),
   (0.82, "#2196f3"), (0.88, "#1976d2"), (0.93, "#0d47a1"), (1, "#000051")]

/-- The bracketing loop of `getGdpColorByRank` over consecutive stop
pairs; when no bracket matches, the source falls back to the last
stop's color, which is the singleton case here (the empty case is
unreachable for the fixed non-empty stop list). -/
def scanStops (normalized : ℚ) : List (ℚ × String) → String
  | s1 :: s2 :: rest =>
    if s1.1 ≤ normalized ∧ normalized ≤ s2.1 then
      let range := s2.1 - s1.1
      let factor := if 0 < range then (normalized - s1.1) / range else 0
      interpolateColor s1.2 s2.2 factor
    else scanStops normalized (s2 :: rest)
  | [s1] => s1.2
  | [] => ""

/-- Function getGdpColorByRank from src/main.js: null and undefined (both
modelled by `none`) or a non-finite rank yield the neutral gray;
otherwise the rank is clamped to `[0,1]` and mapped through the
gradient. -/
def getGdpColorByRank (rank : Option JsNum) : String :=
  match rank with
  | some (JsNum.fin q) => scanStops (min (max q 0) 1) colorStops
  | _ => "#d1d5db"



/-! Basic facts about the JavaScript number model. -/

theorem jsLt_fin (a b : ℚ) : jsLt (JsNum.fin a) (JsNum.fin b) = decide (a < b) := rfl

theorem jsGt_fin (a b : ℚ) : jsGt (JsNum.fin a) (JsNum.fin b) = decide (b < a) := rfl

theorem jsAdd_fin (a b : ℚ) : jsAdd (JsNum.fin a) (JsNum.fin b) = JsNum.fin (a + b) := rfl

theorem jsSub_fin (a b : ℚ) : jsSub (JsNum.fin a) (JsNum.fin b) = JsNum.fin (a - b) := by
  simp [jsSub, jsNeg, jsAdd, sub_eq_add_neg]

theorem distanceKm_nonfinite (hav : Point → Point → JsNum) (origin p : Point)
    (hp : (p.latitude.isFinite && p.longitude.isFinite) = false) :
    distanceKm hav origin p = JsNum.inf := by
  cases h1 : p.latitude.isFinite <;> cases h2 : p.longitude.isFinite <;>
    simp_all [distanceKm]

theorem jsLe_inf_left {r : JsNum} (hr : r ≠ JsNum.inf) : jsLe JsNum.inf r = false := by
  cases r with
  | inf => exact absurd rfl hr
  | nan => rfl
  | ninf => rfl
  | fin q => rfl

/-- Claim C2 (corrected): for every distance kernel, origin, point list
and radius other than `+Infinity`, a point with a non-finite coordinate
is at distance `+Infinity` and is never counted: the whole count equals
the count over the finitely-located points only.  (The original claim,
quantified over every radius, fails at radius `+Infinity`; see the
counterexample.) -/
theorem claim_C2_amended (hav : Point → Point → JsNum) (origin : Point)
    (points : List Point) (radiusKm : JsNum) (hr : radiusKm ≠ JsNum.inf) :
    (∀ p ∈ points, (p.latitude.isFinite && p.longitude.isFinite) = false →
      distanceKm hav origin p = JsNum.inf ∧
      jsLe (distanceKm hav origin p) radiusKm = false) ∧
    countWithinRadius hav origin points radiusKm =
      countWithinRadius hav origin
        (points.filter (fun p => p.latitude.isFinite && p.longitude.isFinite))
        radiusKm := by
  have key : ∀ p : Point, (p.latitude.isFinite && p.longitude.isFinite) = false →
      jsLe (distanceKm hav origin p) radiusKm = false := by
    intro p hp
    rw [distanceKm_nonfinite hav origin p hp]
    exact jsLe_inf_left hr
  refine ⟨fun p _ hp => ⟨distanceKm_nonfinite hav origin p hp, key p hp⟩, ?_⟩
  unfold countWithinRadius
  induction points with
  | nil => rfl
  | cons p ps ih =>
    cases hp : (p.latitude.isFinite && p.longitude.isFinite) with
    | true => simp [List.countP_cons, List.filter_cons, hp, ih]
    | false => simp [List.countP_cons, List.filter_cons, hp, ih, key p hp]

/-- Claim C2, counterexample to the original statement: with radius
`+Infinity`, the point with `NaN` latitude has distance `+Infinity` yet
IS counted (`Infinity <= Infinity` is true in JavaScript), refuting
the never-included reading quantified over every radius. -/
theorem claim_C2_counterexample :
    distanceKm havZero ⟨JsNum.fin 0, JsNum.fin 0⟩ ⟨JsNum.nan, JsNum.fin 0⟩ = JsNum.inf ∧
    (JsNum.nan).isFinite = false ∧
    countWithinRadius havZero ⟨JsNum.fin 0, JsNum.fin 0⟩
      [⟨JsNum.nan, JsNum.fin 0⟩] JsNum.inf = 1 := by decide

/-- Claim C2, witness instantiating the amended theorem at a concrete
input. -/
theorem claim_C2_witness :
    (∀ p ∈ [Point.mk JsNum.nan (JsNum.fin 0), Point.mk (JsNum.fin 1) (JsNum.fin 2)],
      (p.latitude.isFinite && p.longitude.isFinite) = false →
      distanceKm havZero ⟨JsNum.fin 0, JsNum.fin 0⟩ p = JsNum.inf ∧
      jsLe (distanceKm havZero ⟨JsNum.fin 0, JsNum.fin 0⟩ p) (JsNum.fin 100) = false) ∧
    countWithinRadius havZero ⟨JsNum.fin 0, JsNum.fin 0⟩
      [Point.mk JsNum.nan (JsNum.fin 0), Point.mk (JsNum.fin 1) (JsNum.fin 2)] (JsNum.fin 100) =
    countWithinRadius havZero ⟨JsNum.fin 0, JsNum.fin 0⟩
      ([Point.mk JsNum.nan (JsNum.fin 0), Point.mk (JsNum.fin 1) (JsNum.fin 2)].filter
        (fun p => p.latitude.isFinite && p.longitude.isFinite)) (JsNum.fin 100) :=
  claim_C2_amended havZero ⟨JsNum.fin 0, JsNum.fin 0⟩ _ (JsNum.fin 100) (by decide)

/-! Termination of the wrapping loops. -/

theorem loopSub_noop {x : JsNum} (h : jsGt x (JsNum.fin 180) = false) (f : ℕ) :
    loopSub f x = some x := by
  cases f <;> simp [loopSub, h]

theorem loopAdd_noop {x : JsNum} (h : jsLt x (JsNum.fin (-180)) = false) (f : ℕ) :
    loopAdd f x = some x := by
  cases f <;> simp [loopAdd, h]

theorem loopSub_succ : ∀ {n : ℕ} {x r : JsNum}, loopSub n x = some r → loopSub (n + 1) x = some r := by
  intro n
  induction n with
  | zero =>
    intro x r h
    cases hx : jsGt x (JsNum.fin 180) with
    | true => simp [loopSub, hx] at h
    | false => simp [loopSub, hx] at h ⊢; exact h
  | succ n ih =>
    intro x r h
    cases hx : jsGt x (JsNum.fin 180) with
    | true =>
      rw [loopSub, if_pos hx] at h
      rw [loopSub, if_pos hx]
      exact ih h
    | false =>
      rw [loopSub, if_neg (by simp [hx])] at h
      rw [loopSub, if_neg (by simp [hx])]
      exact h

theorem loopAdd_succ : ∀ {n : ℕ} {x r : JsNum}, loopAdd n x = some r → loopAdd (n + 1) x = some r := by
  intro n
  induction n with
  | zero =>
    intro x r h
    cases hx : jsLt x (JsNum.fin (-180)) with
    | true => simp [loopAdd, hx] at h
    | false => simp [loopAdd, hx] at h ⊢; exact h
  | succ n ih =>
    intro x r h
    cases hx : jsLt x (JsNum.fin (-180)) with
    | true =>
      rw [loopAdd, if_pos hx] at h
      rw [loopAdd, if_pos hx]
      exact ih h
    | false =>
      rw [loopAdd, if_neg (by simp [hx])] at h
      rw [loopAdd, if_neg (by simp [hx])]
      exact h

theorem loopSub_le {m n : ℕ} (h : m ≤ n) {x r : JsNum} (hm : loopSub m x = some r) :
    loopSub n x = some r := by
  induction h with
  | refl => exact hm
  | step _ ih => exact loopSub_succ ih

theorem loopAdd_le {m n : ℕ} (h : m ≤ n) {x r : JsNum} (hm : loopAdd m x = some r) :
    loopAdd n x = some r := by
  induction h with
  | refl => exact hm
  | step _ ih => exact loopAdd_succ ih

theorem wrapLon_le {m n : ℕ} (h : m ≤ n) {x r : JsNum} (hm : wrapLon m x = some r) :
    wrapLon n x = some r := by
  unfold wrapLon at hm ⊢
  cases hs : loopSub m x with
  | none => rw [hs] at hm; simp at hm
  | some y =>
    rw [hs] at hm
    rw [loopSub_le h hs]
    exact loopAdd_le h hm

theorem loopSub_fin : ∀ (k : ℕ) (q : ℚ), q ≤ 180 + 360 * (k : ℚ) →
    ∃ r : ℚ, loopSub k (JsNum.fin q) = some (JsNum.fin r) := by
  intro k
  induction k with
  | zero =>
    intro q hq
    refine ⟨q, ?_⟩
    have h : jsGt (JsNum.fin q) (JsNum.fin 180) = false := by
      rw [jsGt_fin, decide_eq_false_iff_not]
      push_cast at hq
      linarith
    simp [loopSub, h]
  | succ k ih =>
    intro q hq
    by_cases h : 180 < q
    · have hgt : jsGt (JsNum.fin q) (JsNum.fin 180) = true := by
        rw [jsGt_fin]; exact decide_eq_true h
      rw [loopSub, if_pos hgt, jsSub_fin]
      apply ih
      push_cast at hq ⊢
      linarith
    · refine ⟨q, ?_⟩
      have hgt : jsGt (JsNum.fin q) (JsNum.fin 180) = false := by
        rw [jsGt_fin, decide_eq_false_iff_not]; exact h
      rw [loopSub, if_neg (by simp [hgt])]

theorem loopAdd_fin : ∀ (k : ℕ) (q : ℚ), -(180 + 360 * (k : ℚ)) ≤ q →
    ∃ r : ℚ, loopAdd k (JsNum.fin q) = some (JsNum.fin r) := by
  intro k
  induction k with
  | zero =>
    intro q hq
    refine ⟨q, ?_⟩
    have h : jsLt (JsNum.fin q) (JsNum.fin (-180)) = false := by
      rw [jsLt_fin, decide_eq_false_iff_not]
      push_cast at hq
      linarith
    simp [loopAdd, h]
  | succ k ih =>
    intro q hq
    by_cases h : q < -180
    · have hlt : jsLt (JsNum.fin q) (JsNum.fin (-180)) = true := by
        rw [jsLt_fin]; exact decide_eq_true h
      rw [loopAdd, if_pos hlt, jsAdd_fin]
      apply ih
      push_cast at hq ⊢
      linarith
    · refine ⟨q, ?_⟩
      have hlt : jsLt (JsNum.fin q) (JsNum.fin (-180)) = false := by
        rw [jsLt_fin, decide_eq_false_iff_not]; exact h
      rw [loopAdd, if_neg (by simp [hlt])]

theorem wrapLon_nan (f : ℕ) : wrapLon f JsNum.nan = some JsNum.nan := by
  cases f <;> rfl

theorem wrapLon_fin (q : ℚ) : ∃ f r, wrapLon f (JsNum.fin q) = some (JsNum.fin r) := by
  obtain ⟨k1, hk1⟩ : ∃ k1 : ℕ, q ≤ 180 + 360 * (k1 : ℚ) := by
    obtain ⟨n, hn⟩ := exists_nat_ge q
    exact ⟨n, by have := Nat.cast_nonneg (α := ℚ) n; linarith⟩
  obtain ⟨r1, hr1⟩ := loopSub_fin k1 q hk1
  obtain ⟨k2, hk2⟩ : ∃ k2 : ℕ, -(180 + 360 * (k2 : ℚ)) ≤ r1 := by
    obtain ⟨n, hn⟩ := exists_nat_ge (-r1)
    exact ⟨n, by have := Nat.cast_nonneg (α := ℚ) n; linarith⟩
  obtain ⟨r2, hr2⟩ := loopAdd_fin k2 r1 hk2
  refine ⟨max k1 k2, r2, ?_⟩
  unfold wrapLon
  rw [loopSub_le (le_max_left k1 k2) hr1]
  exact loopAdd_le (le_max_right k1 k2) hr2

theorem wrapLon_exists {x : JsNum} (hx1 : x ≠ JsNum.inf) (hx2 : x ≠ JsNum.ninf) :
    ∃ f y, wrapLon f x = some y := by
  cases x with
  | nan => exact ⟨0, JsNum.nan, wrapLon_nan 0⟩
  | inf => exact absurd rfl hx1
  | ninf => exact absurd rfl hx2
  | fin q =>
    obtain ⟨f, r, h⟩ := wrapLon_fin q
    exact ⟨f, JsNum.fin r, h⟩

theorem normRingAux_le : ∀ {ring : List (JsNum × JsNum)} {m n : ℕ} {out},
    m ≤ n → normRingAux m ring = some out → normRingAux n ring = some out := by
  intro ring
  induction ring with
  | nil => intro m n out _ hm; exact hm
  | cons c rest ih =>
    intro m n out h hm
    unfold normRingAux at hm ⊢
    cases hw : wrapLon m c.1 with
    | none => rw [hw] at hm; simp at hm
    | some lon =>
      cases hrest : normRingAux m rest with
      | none => rw [hw, hrest] at hm; simp at hm
      | some rest2 =>
        rw [hw, hrest] at hm
        rw [wrapLon_le h hw, ih h hrest]
        exact hm

theorem normRingAux_total : ∀ (ring : List (JsNum × JsNum)),
    (∀ c ∈ ring, c.1 ≠ JsNum.inf ∧ c.1 ≠ JsNum.ninf) →
    ∃ f out, normRingAux f ring = some out := by
  intro ring
  induction ring with
  | nil => exact fun _ => ⟨0, [], rfl⟩
  | cons c rest ih =>
    intro h
    obtain ⟨f1, y, hy⟩ := wrapLon_exists (h c (by simp)).1 (h c (by simp)).2
    obtain ⟨f2, out2, hout⟩ := ih (fun c2 hc2 => h c2 (by simp [hc2]))
    refine ⟨max f1 f2, (y, c.2) :: out2, ?_⟩
    unfold normRingAux
    rw [wrapLon_le (le_max_left f1 f2) hy, normRingAux_le (le_max_right f1 f2) hout]

/-- Claim C3 (corrected/amended): `normalizeRing` terminates on every
ring whose longitudes avoid `±Infinity` (finite or `NaN` longitudes are
fine).  The original claim, which included all non-finite longitudes,
fails: see the counterexample with a `+Infinity` longitude. -/
theorem claim_C3_amended (ring : List (JsNum × JsNum))
    (h : ∀ c ∈ ring, c.1 ≠ JsNum.inf ∧ c.1 ≠ JsNum.ninf) :
    NormalizeTerminates ring := by
  by_cases hc : crossesDateline ring = true
  · exact ⟨0, by simp [normalizeRing, hc]⟩
  · obtain ⟨f, out, hout⟩ := normRingAux_total ring h
    refine ⟨f, ?_⟩
    simp [normalizeRing, hc, hout]

theorem loopSub_stall : ∀ n : ℕ, loopSub n JsNum.inf = none := by
  intro n
  induction n with
  | zero => rfl
  | succ n ih => exact ih

/-- Claim C3, counterexample to the original statement: on a ring with a
`+Infinity` longitude the non-crossing wrap loop
`while (lon > 180) lon -= 360` never exits (`Infinity - 360` is
`Infinity`), so no finite number of steps computes a result. -/
theorem claim_C3_counterexample : ¬ NormalizeTerminates [(JsNum.inf, JsNum.fin 0)] := by
  rintro ⟨fuel, hf⟩
  have hcd : crossesDateline [(JsNum.inf, JsNum.fin 0)] = false := by decide
  rw [normalizeRing, hcd, if_neg Bool.false_ne_true] at hf
  have hnone : normRingAux fuel [(JsNum.inf, JsNum.fin 0)] = none := by
    unfold normRingAux wrapLon
    rw [loopSub_stall]
    rfl
  rw [hnone] at hf
  simp at hf

/-- Claim C3, witness instantiating the amended theorem: a ring with an
out-of-range finite longitude and a `NaN` longitude is normalized in
finitely many steps. -/
theorem claim_C3_witness :
    NormalizeTerminates [(JsNum.fin 500, JsNum.fin 0), (JsNum.nan, JsNum.fin 1)] :=
  claim_C3_amended _ (by decide)

/-! The dateline-crossing branch. -/

theorem crossShift_range {c : JsNum × JsNum} {q : ℚ} (hc : c.1 = JsNum.fin q)
    (h1 : -180 ≤ q) (h2 : q ≤ 180) :
    ∃ q2, (crossShift c).1 = JsNum.fin q2 ∧ 0 ≤ q2 ∧ q2 ≤ 180 := by
  by_cases hq : q < 0
  · by_cases hq2 : 180 < q + 360
    · refine ⟨180, ?_, by norm_num, le_refl 180⟩
      simp [crossShift, hc, jsLt_fin, jsGt_fin, jsAdd_fin, jsSub_fin, hq, hq2]
    · refine ⟨q + 360, ?_, by linarith, by linarith⟩
      simp [crossShift, hc, jsLt_fin, jsGt_fin, jsAdd_fin, jsSub_fin, hq, hq2]
  · refine ⟨q, ?_, by linarith, h2⟩
    have hng : ¬ (180 < q) := by linarith
    simp [crossShift, hc, jsLt_fin, jsGt_fin, jsAdd_fin, jsSub_fin, hq, hng]

/-- Claim C8 (confirmed): a ring with all longitudes finite in
`[-180, 180]` that is classified dateline-crossing is rewritten with all
longitudes finite in `[0, 180]` (negatives shifted by +360, values above
180 clamped to 180). -/
theorem claim_C8 (fuel : ℕ) (ring : List (JsNum × JsNum))
    (hin : ∀ c ∈ ring, lonInRange c.1 (-180) 180 = true)
    (hcross : crossesDateline ring = true) :
    ∃ out, normalizeRing fuel ring = some out ∧
      ∀ c2 ∈ out, lonInRange c2.1 0 180 = true := by
  refine ⟨ring.map crossShift, by simp [normalizeRing, hcross], ?_⟩
  intro c2 hc2
  obtain ⟨c, hc, rfl⟩ := List.mem_map.mp hc2
  have hr := hin c hc
  cases hx : c.1 with
  | nan => rw [hx] at hr; simp [lonInRange] at hr
  | inf => rw [hx] at hr; simp [lonInRange] at hr
  | ninf => rw [hx] at hr; simp [lonInRange] at hr
  | fin q =>
    rw [hx] at hr
    simp only [lonInRange, Bool.and_eq_true, decide_eq_true_eq] at hr
    obtain ⟨q2, hq2, hlo, hhi⟩ := crossShift_range hx hr.1 hr.2
    rw [hq2]
    simp [lonInRange, hlo, hhi]

unseal Rat.add Rat.sub Rat.mul Rat.inv Rat.ofScientific in
/-- Claim C8, witness: the ring with longitudes `[-170, 170, -175]` is
crossing-classified and lands entirely in `[0, 180]`. -/
theorem claim_C8_witness :
    ∃ out, normalizeRing 0 [(JsNum.fin (-170), JsNum.fin 0), (JsNum.fin 170, JsNum.fin 0),
        (JsNum.fin (-175), JsNum.fin 0)] = some out ∧
      ∀ c2 ∈ out, lonInRange c2.1 0 180 = true :=
  claim_C8 0 _ (by decide) (by decide)

/-! The non-crossing branch on already-normalized rings. -/

theorem wrapLon_id {q : ℚ} (h1 : -180 ≤ q) (h2 : q ≤ 180) (f : ℕ) :
    wrapLon f (JsNum.fin q) = some (JsNum.fin q) := by
  unfold wrapLon
  rw [loopSub_noop (by rw [jsGt_fin, decide_eq_false_iff_not]; linarith) f]
  exact loopAdd_noop (by rw [jsLt_fin, decide_eq_false_iff_not]; linarith) f

theorem normRingAux_id : ∀ (ring : List (JsNum × JsNum)) (fuel : ℕ),
    (∀ c ∈ ring, lonInRange c.1 (-180) 180 = true) →
    normRingAux fuel ring = some ring := by
  intro ring
  induction ring with
  | nil => intro fuel _; rfl
  | cons c rest ih =>
    intro fuel h
    have hc := h c (by simp)
    unfold normRingAux
    cases hx : c.1 with
    | nan => rw [hx] at hc; simp [lonInRange] at hc
    | inf => rw [hx] at hc; simp [lonInRange] at hc
    | ninf => rw [hx] at hc; simp [lonInRange] at hc
    | fin q =>
      rw [hx] at hc
      simp only [lonInRange, Bool.and_eq_true, decide_eq_true_eq] at hc
      rw [wrapLon_id hc.1 hc.2 fuel, ih fuel (fun c2 hc2 => h c2 (by simp [hc2]))]
      show some ((JsNum.fin q, c.2) :: rest) = some (c :: rest)
      rw [← hx]

/-- Claim C9 (confirmed): a ring with all longitudes finite in
`[-180, 180]` that is classified non-crossing is returned unchanged by
`normalizeRing` (the wrap loops do not fire), and therefore normalizing
an already-normalized non-crossing ring is idempotent. -/
theorem claim_C9 (fuel : ℕ) (ring : List (JsNum × JsNum))
    (hin : ∀ c ∈ ring, lonInRange c.1 (-180) 180 = true)
    (hcross : crossesDateline ring = false) :
    normalizeRing fuel ring = some ring ∧
    (normalizeRing fuel ring).bind (normalizeRing fuel) = normalizeRing fuel ring := by
  have main : normalizeRing fuel ring = some ring := by
    rw [normalizeRing, hcross, if_neg Bool.false_ne_true]
    exact normRingAux_id ring fuel hin
  exact ⟨main, by rw [main]; simpa using main⟩

unseal Rat.add Rat.sub Rat.mul Rat.inv Rat.ofScientific in
/-- Claim C9, witness: a concrete in-range non-crossing ring is
returned unchanged. -/
theorem claim_C9_witness :
    normalizeRing 3 [(JsNum.fin 10, JsNum.fin 1), (JsNum.fin 20, JsNum.fin 2)] =
      some [(JsNum.fin 10, JsNum.fin 1), (JsNum.fin 20, JsNum.fin 2)] ∧
    (normalizeRing 3 [(JsNum.fin 10, JsNum.fin 1), (JsNum.fin 20, JsNum.fin 2)]).bind
        (normalizeRing 3) =
      normalizeRing 3 [(JsNum.fin 10, JsNum.fin 1), (JsNum.fin 20, JsNum.fin 2)] :=
  claim_C9 3 _ (by decide) (by decide)



/-! Country identity resolution. -/

/-- Claim C7 (confirmed): `"USA"`, `"United States of America"` and
`"united states"` all normalize to the same canonical name, so for
every alias table the three resolutions agree. -/
theorem claim_C7 (m : List (String × String)) :
    findCountryCode ("USA") m = findCountryCode ("united states") m ∧
    findCountryCode ("United States of America") m =
      findCountryCode ("united states") m := by
  constructor <;> rfl

/-- Claim C7, witness instantiating the theorem at a concrete alias
table. -/
theorem claim_C7_witness :
    findCountryCode ("USA") [("united states", "USA")] =
      findCountryCode ("united states") [("united states", "USA")] :=
  (claim_C7 [("united states", "USA")]).1

theorem assocLookup_none {k : String} :
    ∀ {m : List (String × String)}, (∀ p ∈ m, p.1 ≠ k) → assocLookup k m = none := by
  intro m
  induction m with
  | nil => intro _; rfl
  | cons p rest ih =>
    intro h
    obtain ⟨k2, v⟩ := p
    have hk2 : k2 ≠ k := h (k2, v) (by simp)
    simp only [assocLookup]
    rw [if_neg (Ne.symm hk2)]
    exact ih (fun p2 hp2 => h p2 (by simp [hp2]))

theorem listContains_nil_needle : ∀ hay : List Char, listContains [] hay = true := by
  intro hay
  cases hay <;> simp [listContains, listPrefixOf]

theorem strContains_empty_right (k : String) : strContains k ("") = true :=
  listContains_nil_needle k.data

theorem strContains_of_empty {k : String} (h : k ≠ "") : strContains ("") k = false := by
  unfold strContains listContains
  cases hd : k.data with
  | nil => exact absurd (by cases k; simp_all) h
  | cons c cs => rfl

/-- Claim C10 (confirmed): a non-empty raw name that is all whitespace
normalizes to the empty string; the exact lookup misses (no empty key),
and in the substring fallback the empty string is contained in the first
entry's name, so the first entry's code is returned rather than null. -/
theorem claim_C10 (raw : String) (m : List (String × String)) (k c : String)
    (rest : List (String × String)) (hraw : raw ≠ "")
    (hws : trimStr (toLowerStr raw) = "") (hm : m = (k, c) :: rest)
    (hkeys : ∀ p ∈ m, p.1 ≠ "") :
    findCountryCode raw m = some c := by
  have hnorm : normalizeCountryName raw = "" := by
    unfold normalizeCountryName
    rw [if_neg hraw, hws]
    rfl
  have h1 : strContains ("") k = false :=
    strContains_of_empty (hkeys (k, c) (by simp [hm]))
  have h2 : strContains k ("") = true := strContains_empty_right k
  simp only [findCountryCode, hnorm, if_neg hraw]
  rw [assocLookup_none hkeys]
  simp only [Option.getD_none, if_true]
  subst hm
  simp [substringFallback, h1, h2]

/-- Claim C10, witness: a single space resolves to the first (and only)
entry's code. -/
theorem claim_C10_witness :
    findCountryCode (" ") [("france", "FRA")] = some ("FRA") :=
  claim_C10 (" ") [("france", "FRA")] ("france") ("FRA") [] (by decide) (by decide)
    rfl (by decide)

/-! The gdpData dictionary and the fillOpacity rule. -/

theorem addTotal_other {m : String × Option ℚ → Option GdpEntry} {row : GdpRow}
    {k : String × Option ℚ} (h : k ≠ (row.country_code, row.year)) :
    addTotal m row k = m k := by
  simp [addTotal, h]

theorem foldl_addTotal_skip : ∀ (rows : List GdpRow)
    (m : String × Option ℚ → Option GdpEntry) (k : String × Option ℚ),
    (∀ r ∈ rows, k ≠ (r.country_code, r.year)) →
    rows.foldl addTotal m k = m k := by
  intro rows
  induction rows with
  | nil => intro m k _; rfl
  | cons r rest ih =>
    intro m k h
    rw [List.foldl_cons, ih _ _ (fun r2 h2 => h r2 (by simp [h2]))]
    exact addTotal_other (h r (by simp))

theorem foldl_addPC_pres : ∀ (rows : List GdpRow)
    (m : String × Option ℚ → Option GdpEntry) (k : String × Option ℚ) (e : GdpEntry),
    m k = some e → e.total = JsOpt.undef →
    ∃ e2, rows.foldl addPerCapita m k = some e2 ∧ e2.total = JsOpt.undef := by
  intro rows
  induction rows with
  | nil => intro m k e h1 h2; exact ⟨e, h1, h2⟩
  | cons r rest ih =>
    intro m k e h1 h2
    rw [List.foldl_cons]
    by_cases hk : k = (r.country_code, r.year)
    · refine ih (addPerCapita m r) k
        { (m k).getD emptyEntry with perCapita := jsOptOfOpt r.value } ?_ ?_
      · simp [addPerCapita, hk]
      · simp [h1, h2]
    · exact ih (addPerCapita m r) k e (by simp [addPerCapita, hk, h1]) h2

theorem foldl_addPC_hit : ∀ (rows : List GdpRow)
    (m : String × Option ℚ → Option GdpEntry) (k : String × Option ℚ),
    (∀ e, m k = some e → e.total = JsOpt.undef) →
    (∃ r ∈ rows, (r.country_code, r.year) = k) →
    ∃ e2, rows.foldl addPerCapita m k = some e2 ∧ e2.total = JsOpt.undef := by
  intro rows
  induction rows with
  | nil =>
    rintro m k _ ⟨r, hr, _⟩
    exact absurd hr (List.not_mem_nil r)
  | cons r rest ih =>
    rintro m k hinv ⟨r2, hr2, hkey⟩
    rw [List.foldl_cons]
    by_cases hk : k = (r.country_code, r.year)
    · have hm2 : addPerCapita m r k =
          some { (m k).getD emptyEntry with perCapita := jsOptOfOpt r.value } := by
        simp [addPerCapita, hk]
      have htot : ({ (m k).getD emptyEntry with
          perCapita := jsOptOfOpt r.value } : GdpEntry).total = JsOpt.undef := by
        cases hmk : m k with
        | none => simp [emptyEntry]
        | some e => simpa using hinv e hmk
      exact foldl_addPC_pres rest _ k _ hm2 htot
    · have hrest : ∃ r3 ∈ rest, (r3.country_code, r3.year) = k := by
        rcases List.mem_cons.mp hr2 with h | h
        · subst h; exact absurd hkey.symm hk
        · exact ⟨r2, h, hkey⟩
      refine ih (addPerCapita m r) k ?_ hrest
      intro e he
      rw [addPerCapita] at he
      rw [if_neg hk] at he
      exact hinv e he

/-- Claim C1 (corrected/amended): when the feature resolves to a country
code for which the selected year has no total-GDP row but at least one
per-capita row, the style's fillOpacity is the HIGH value 0.95, not the
low value: the per-capita row creates the `gdpData` entry, its `total`
field stays `undefined`, and `undefined !== null` holds in JavaScript.
In general the low value 0.2 is produced exactly when the looked-up
`total` is JavaScript `null` (entry absent, unresolved code, or a total
row whose value failed to parse). -/
theorem claim_C1_amended (T P : List GdpRow) (props : FeatureProps) (year : ℚ)
    (code : String)
    (hfind : findCountryCode (getCountryName props) (buildCountryNameToCodeMap T P) =
      some code)
    (hcode : code ≠ "")
    (hT : ∀ r ∈ T, ¬(r.country_code = code ∧ r.year = some year))
    (hP : ∃ r ∈ P, r.country_code = code ∧ r.year = some year) :
    styleFillOpacity (buildGdpData T P) (buildCountryNameToCodeMap T P) props year =
      0.95 := by
  have hbase : (T.foldl addTotal (fun _ => none)) (code, some year) = none :=
    foldl_addTotal_skip T (fun _ => none) (code, some year) (by
      intro r hr heq
      exact hT r hr ⟨(Prod.ext_iff.mp heq).1.symm, (Prod.ext_iff.mp heq).2.symm⟩)
  have hmatch : ∃ r ∈ P, (r.country_code, r.year) = (code, some year) := by
    obtain ⟨r, hr, h1, h2⟩ := hP
    exact ⟨r, hr, by simp [h1, h2]⟩
  obtain ⟨e2, he2, htot⟩ := foldl_addPC_hit P (T.foldl addTotal (fun _ => none))
    (code, some year)
    (fun e he => by rw [hbase] at he; exact Option.noConfusion he) hmatch
  have hgdp : buildGdpData T P (code, some year) = some e2 := he2
  simp only [styleFillOpacity, hfind]
  rw [if_neg hcode, hgdp]
  show (if e2.total ≠ JsOpt.nullV then (0.95 : ℚ) else 0.2) = 0.95
  rw [htot]
  simp

unseal Rat.add Rat.sub Rat.mul Rat.inv Rat.ofScientific in
/-- Claim C1, counterexample to the original claim: the United States
has only a per-capita GDP row for 2020 (no total row), yet the style
gives it fillOpacity 0.95 where the claim demands the low value 0.2. -/
theorem claim_C1_counterexample :
    styleFillOpacity (buildGdpData [] [⟨"United States", "USA", some 2020, some 5⟩])
      (buildCountryNameToCodeMap [] [⟨"United States", "USA", some 2020, some 5⟩])
      ⟨"United States", "", "", "", ""⟩ 2020 = 0.95 ∧ (0.95 : ℚ) ≠ 0.2 := by decide

unseal Rat.add Rat.sub Rat.mul Rat.inv Rat.ofScientific in
/-- Claim C1, witness instantiating the amended theorem: Germany has a
total row, the United States only a per-capita row; the United States
feature still gets opacity 0.95. -/
theorem claim_C1_witness :
    styleFillOpacity
      (buildGdpData [⟨"Germany", "DEU", some 2020, some 7⟩]
        [⟨"United States", "USA", some 2020, some 5⟩])
      (buildCountryNameToCodeMap [⟨"Germany", "DEU", some 2020, some 7⟩]
        [⟨"United States", "USA", some 2020, some 5⟩])
      ⟨"United States", "", "", "", ""⟩ 2020 = 0.95 :=
  claim_C1_amended [⟨"Germany", "DEU", some 2020, some 7⟩]
    [⟨"United States", "USA", some 2020, some 5⟩]
    ⟨"United States", "", "", "", ""⟩ 2020 "USA" (by decide) (by decide) (by decide)
    ⟨⟨"United States", "USA", some 2020, some 5⟩, by decide, by decide⟩

/-! The rank table. -/

unseal Rat.add Rat.sub Rat.mul Rat.inv Rat.ofScientific in
/-- Claim C4 (confirmed): the year filter keeps the year's finite
values, and the rank table built from `[10, 20, 20, 30]` assigns
10 ↦ 0, 20 ↦ 0.5 (positions 1 and 2 average to 1.5, normalized by
4 − 1 = 3) and 30 ↦ 1. -/
theorem claim_C4 :
    gdpValuesForYear
      [⟨"a", "A", some 2020, some 10⟩, ⟨"b", "B", some 2020, some 20⟩,
       ⟨"c", "C", some 2020, some 20⟩, ⟨"d", "D", some 2020, some 30⟩,
       ⟨"e", "E", some 2019, some 99⟩, ⟨"f", "F", some 2020, none⟩] 2020 =
      [10, 20, 20, 30] ∧
    rankOf [10, 20, 20, 30] 10 = some 0 ∧
    rankOf [10, 20, 20, 30] 20 = some (1/2) ∧
    rankOf [10, 20, 20, 30] 30 = some 1 := by decide

theorem orderedInsert_replicate (v : ℚ) (n : ℕ) :
    orderedInsert v (List.replicate n v) = v :: List.replicate n v := by
  cases n with
  | zero => rfl
  | succ n => simp [List.replicate_succ, orderedInsert]

theorem sortAsc_const : ∀ (l : List ℚ) (v : ℚ), (∀ x ∈ l, x = v) →
    sortAsc l = List.replicate l.length v := by
  intro l v
  induction l with
  | nil => intro _; rfl
  | cons x xs ih =>
    intro h
    have hx : x = v := h x (by simp)
    have hxs := ih (fun y hy => h y (by simp [hy]))
    show orderedInsert x (sortAsc xs) = _
    rw [hx, hxs, orderedInsert_replicate]
    simp [List.replicate_succ]

theorem positionsOf_replicate (n : ℕ) (v : ℚ) :
    positionsOf (List.replicate n v) v = List.range n := by
  unfold positionsOf
  rw [List.enum_eq_zip_range, List.length_replicate]
  rw [List.filter_eq_self.mpr]
  · exact List.map_fst_zip _ _ (by simp)
  · intro p hp
    have hmem := (List.of_mem_zip hp).2
    have hv := List.eq_of_mem_replicate hmem
    simp [hv]

theorem sum_range_cast (n : ℕ) :
    ((List.range n).map (fun i : ℕ => (i : ℚ))).sum = n * (n - 1) / 2 := by
  induction n with
  | zero => simp
  | succ n ih =>
    rw [List.range_succ, List.map_append, List.sum_append]
    simp only [List.map_cons, List.map_nil, List.sum_cons, List.sum_nil, add_zero]
    rw [ih]
    push_cast
    ring

/-- Claim C5 (confirmed): a non-empty value list with a single distinct
value (any multiplicity) ranks that value 0.5: for k occurrences the
positions 0..k−1 average to (k−1)/2, normalized by k−1 this is 1/2, and
the single-occurrence case takes the explicit 0.5 branch. -/
theorem claim_C5 (values : List ℚ) (v : ℚ) (hne : values ≠ [])
    (hall : ∀ x ∈ values, x = v) : rankOf values v = some (1/2) := by
  have hn : values.length ≠ 0 := by
    simpa using (List.length_pos.mpr hne).ne'
  simp only [rankOf]
  rw [sortAsc_const values v hall]
  rw [positionsOf_replicate, List.length_replicate]
  have hrange : (List.range values.length).isEmpty = false := by
    simp [List.isEmpty_iff, List.range_eq_nil, hn]
  rw [hrange, if_neg Bool.false_ne_true, List.length_range, sum_range_cast]
  by_cases h1 : 1 < values.length
  · rw [if_pos h1]
    have hn0 : ((values.length : ℚ)) ≠ 0 := Nat.cast_ne_zero.mpr hn
    have hn1 : ((values.length : ℚ)) - 1 ≠ 0 := by
      have : (1 : ℚ) < values.length := by exact_mod_cast h1
      linarith
    congr 1
    field_simp
    ring
  · rw [if_neg h1]

unseal Rat.add Rat.sub Rat.mul Rat.inv Rat.ofScientific in
/-- Claim C5, witness: three equal values rank 0.5. -/
theorem claim_C5_witness : rankOf [7, 7, 7] 7 = some (1/2) :=
  claim_C5 [7, 7, 7] 7 (by decide) (by decide)

/-! The gradient endpoints. -/

unseal Rat.add Rat.sub Rat.mul Rat.inv Rat.ofScientific in
/-- Claim C6 (confirmed): rank 0 maps to the first stop color
`#ffffff`, rank 1 to the last stop color `#000051`, and a null or
non-finite rank to the neutral gray `#d1d5db`. -/
theorem claim_C6 :
    getGdpColorByRank (some (JsNum.fin 0)) = "#ffffff" ∧
    getGdpColorByRank (some (JsNum.fin 1)) = "#000051" ∧
    getGdpColorByRank none = "#d1d5db" ∧
    ∀ r : JsNum, r.isFinite = false → getGdpColorByRank (some r) = "#d1d5db" := by
  refine ⟨by decide, by decide, rfl, ?_⟩
  intro r h
  cases r with
  | fin q => simp [JsNum.isFinite] at h
  | nan => rfl
  | inf => rfl
  | ninf => rfl

/-- Claim C6, witness for the non-finite conjunct: a `+Infinity` rank
gets the neutral gray. -/
theorem claim_C6_witness : getGdpColorByRank (some JsNum.inf) = "#d1d5db" :=
  claim_C6.2.2.2 JsNum.inf rfl

end GeoCore
